import Mathlib

/-!
Verification of the BLE IMU orientation-streaming sketch.

The development shallowly embeds the sketch's two source files:
the fused-output sketch (`InitializeIMUAndBLE`, `ReadSensorData`,
`ComputeOrientation`, `SendOrientation`, `loop`) and the raw-passthrough
variant (`setup`/`loop` of `adafruit_lsm6dso32.ino`).

Floating-point values are idealised as real numbers (for the fusion
filter) and rationals (for the fixed-precision frame encoder); machine
side effects become explicit state passing over a per-tick environment.
-/

namespace Imu

-- ======================================================================
-- Constants (source lines 40-41)
--   constexpr float SAMPLE_RATE_HZ = 100.0f;  // Match with loop delay
--   constexpr int LOOP_DELAY_MS = 100;        // Delay per loop in ms
-- ======================================================================

def SAMPLE_RATE_HZ : ℚ := 100

def LOOP_DELAY_MS : ℤ := 100

-- ======================================================================
-- Frame encoding: SendOrientation (source lines 150-156)
--   snprintf(buffer, 128, "{\"roll\":%.2f,\"pitch\":%.2f,\"yaw\":%.2f}", ...)
-- The payload is modelled as a list of (ASCII) characters; one character
-- is one byte of the encoded frame.
-- ======================================================================

def digitChar (d : ℕ) : Char := Char.ofNat (48 + d)

/-- Decimal digits of `n`, most significant first, as `%u` would render them. -/
def natDigits (n : ℕ) : List Char :=
  if _h : n < 10 then [digitChar n]
  else natDigits (n / 10) ++ [digitChar (n % 10)]
decreasing_by exact Nat.div_lt_self (by omega) (by omega)

/-- The `%.2f` conversion of `snprintf`: round to two decimals and render
with a minus sign for negative values, at least one integer digit, a dot,
and exactly two decimal digits. -/
def fmt2 (x : ℚ) : List Char :=
  let n : ℤ := round (x * 100)
  let m : ℕ := n.natAbs
  (if n < 0 then ['-'] else []) ++ natDigits (m / 100) ++
    '.' :: [digitChar (m % 100 / 10), digitChar (m % 10)]

def litRoll : List Char := ['{', '"', 'r', 'o', 'l', 'l', '"', ':']

def litPitch : List Char := [',', '"', 'p', 'i', 't', 'c', 'h', '"', ':']

def litYaw : List Char := [',', '"', 'y', 'a', 'w', '"', ':']

/-- The byte sequence `SendOrientation` writes to the BLE characteristic:
the `snprintf` format string of source line 153 instantiated at the three
angles. -/
def encodeFrame (roll pitch yaw : ℚ) : List Char :=
  litRoll ++ fmt2 roll ++ litPitch ++ fmt2 pitch ++ litYaw ++ fmt2 yaw ++ ['}']

-- ======================================================================
-- Frame decoding (consumer side; spec section 8 "Frame round-trip").
-- A small lenient reader of the exact frame shape produced above.
-- ======================================================================

/-- Consume the expected literal characters `lit` from the front of the
input, returning the remainder. -/
def parseLit : List Char → List Char → Option (List Char)
  | [], rest => some rest
  | _ :: _, [] => none
  | c :: cs, d :: ds => if d = c then parseLit cs ds else none

/-- Consume a maximal run of decimal digits, accumulating their value. -/
def parseDigits : List Char → ℕ → ℕ × List Char
  | [], acc => (acc, [])
  | c :: cs, acc =>
    if c.isDigit then parseDigits cs (acc * 10 + (c.toNat - 48)) else (acc, c :: cs)

/-- Read an unsigned fixed-point number with exactly two decimals. -/
def parseUFixed (l : List Char) : Option (ℚ × List Char) :=
  match parseDigits l 0 with
  | (ip, l1) =>
    match l1 with
    | '.' :: d1 :: d2 :: rest =>
      if d1.isDigit ∧ d2.isDigit then
        some ((ip : ℚ) + (((d1.toNat - 48) * 10 + (d2.toNat - 48) : ℕ) : ℚ) / 100, rest)
      else none
    | _ => none

/-- Read a signed fixed-point number with exactly two decimals. -/
def parseFixed : List Char → Option (ℚ × List Char)
  | [] => none
  | c :: rest =>
    if c = '-' then
      match parseUFixed rest with
      | some (v, r) => some (-v, r)
      | none => none
    else parseUFixed (c :: rest)

/-- Parse a whole orientation frame back into its three angles. -/
def parseFrame (l : List Char) : Option (ℚ × ℚ × ℚ) :=
  match parseLit litRoll l with
  | none => none
  | some l1 =>
    match parseFixed l1 with
    | none => none
    | some (r, l2) =>
      match parseLit litPitch l2 with
      | none => none
      | some l3 =>
        match parseFixed l3 with
        | none => none
        | some (p, l4) =>
          match parseLit litYaw l4 with
          | none => none
          | some l5 =>
            match parseFixed l5 with
            | none => none
            | some (y, l6) =>
              match l6 with
              | ['}'] => some (r, p, y)
              | _ => none

-- ======================================================================
-- Character and digit-string lemmas
-- ======================================================================

lemma digitChar_isDigit {d : ℕ} (h : d < 10) : (digitChar d).isDigit = true := by
  interval_cases d <;> decide

lemma digitChar_toNat {d : ℕ} (h : d < 10) : (digitChar d).toNat = 48 + d := by
  interval_cases d <;> decide

lemma digitChar_ne_dash {d : ℕ} (h : d < 10) : digitChar d ≠ '-' := by
  interval_cases d <;> decide

lemma digitChar_ne_dot {d : ℕ} (h : d < 10) : digitChar d ≠ '.' := by
  interval_cases d <;> decide

lemma natDigits_ne_nil (n : ℕ) : natDigits n ≠ [] := by
  rw [natDigits]
  split
  · simp
  · simp

lemma natDigits_mem_isDigit (n : ℕ) : ∀ c ∈ natDigits n, c.isDigit = true := by
  induction n using Nat.strong_induction_on with
  | _ n ih =>
    rw [natDigits]
    split
    · next h =>
      intro c hc
      simp only [List.mem_singleton] at hc
      subst hc
      exact digitChar_isDigit h
    · next h =>
      intro c hc
      rw [List.mem_append] at hc
      rcases hc with hc | hc
      · exact ih (n / 10) (Nat.div_lt_self (by omega) (by omega)) c hc
      · simp only [List.mem_singleton] at hc
        subst hc
        exact digitChar_isDigit (Nat.mod_lt _ (by omega))

lemma natDigits_length_le : ∀ k n : ℕ, n < 10 ^ (k + 1) → (natDigits n).length ≤ k + 1 := by
  intro k
  induction k with
  | zero =>
    intro n hn
    rw [natDigits]
    have : n < 10 := by simpa using hn
    rw [dif_pos this]
    simp
  | succ k ih =>
    intro n hn
    rw [natDigits]
    split
    · simp
    · next h =>
      have hdiv : n / 10 < 10 ^ (k + 1) := by
        rw [Nat.div_lt_iff_lt_mul (by omega)]
        calc n < 10 ^ (k + 2) := hn
        _ = 10 ^ (k + 1) * 10 := by ring
      simpa using Nat.add_le_add_right (ih (n / 10) hdiv) 1

lemma parseLit_self (lit : List Char) (r : List Char) : parseLit lit (lit ++ r) = some r := by
  induction lit with
  | nil => rfl
  | cons c cs ih => simpa [parseLit] using ih

/-- The head of the remainder is not a digit (or the remainder is empty). -/
def headNotDigit : List Char → Prop
  | [] => True
  | c :: _ => c.isDigit = false

lemma parseDigits_stop {l : List Char} (h : headNotDigit l) (acc : ℕ) :
    parseDigits l acc = (acc, l) := by
  cases l with
  | nil => rfl
  | cons c cs => simp [parseDigits, headNotDigit.eq_def ] at h ⊢; simp [h]

lemma parseDigits_natDigits :
    ∀ n : ℕ, ∀ acc : ℕ, ∀ l : List Char,
      parseDigits (natDigits n ++ l) acc =
        parseDigits l (acc * 10 ^ (natDigits n).length + n) := by
  intro n
  induction n using Nat.strong_induction_on with
  | _ n ih =>
    intro acc l
    rw [natDigits]
    split
    · next h =>
      simp [parseDigits, digitChar_isDigit h, digitChar_toNat h]
    · next h =>
      rw [List.append_assoc, ih (n / 10) (Nat.div_lt_self (by omega) (by omega))]
      have hm : n % 10 < 10 := Nat.mod_lt _ (by omega)
      simp only [List.cons_append, List.nil_append, parseDigits, digitChar_isDigit hm,
        if_pos, digitChar_toNat hm, List.length_append, List.length_singleton]
      congr 1
      have := Nat.div_add_mod n 10
      ring_nf
      omega

lemma parseUFixed_encode (m : ℕ) (l : List Char) :
    parseUFixed (natDigits (m / 100) ++
      '.' :: digitChar (m % 100 / 10) :: digitChar (m % 10) :: l) =
      some ((m : ℚ) / 100, l) := by
  have h1 : m % 100 / 10 < 10 := by omega
  have h2 : m % 10 < 10 := by omega
  rw [parseUFixed, parseDigits_natDigits, parseDigits_stop (by simp [headNotDigit])]
  simp only [digitChar_isDigit h1, digitChar_isDigit h2, and_self, if_true,
    digitChar_toNat h1, digitChar_toNat h2, eq_self_iff_true]
  have e0 : 0 * 10 ^ (natDigits (m / 100)).length + m / 100 = m / 100 := by ring
  have e1 : 48 + m % 100 / 10 - 48 = m % 100 / 10 := by omega
  have e2 : 48 + m % 10 - 48 = m % 10 := by omega
  rw [e0, e1, e2]
  have hval : m % 100 / 10 * 10 + m % 10 = m % 100 := by omega
  rw [hval]
  have hq : ((m / 100 : ℕ) : ℚ) + ((m % 100 : ℕ) : ℚ) / 100 = (m : ℚ) / 100 := by
    have h100 : (100 * (m / 100) + m % 100 : ℕ) = m := Nat.div_add_mod m 100
    have hc : ((100 * (m / 100) + m % 100 : ℕ) : ℚ) = (m : ℚ) := by rw [h100]
    push_cast at hc
    field_simp
    linarith
  rw [hq]

lemma parseFixed_fmt2 (x : ℚ) (l : List Char) :
    parseFixed (fmt2 x ++ l) = some ((round (x * 100) : ℚ) / 100, l) := by
  rw [fmt2]
  set n : ℤ := round (x * 100) with hn
  by_cases hneg : n < 0
  · rw [if_pos hneg]
    simp only [List.cons_append, List.nil_append, List.append_assoc]
    rw [parseFixed]
    rw [if_pos rfl, parseUFixed_encode]
    have habs : ((n.natAbs : ℚ)) = -(n : ℚ) := by
      rw [Int.cast_natAbs, abs_of_neg hneg]
      push_cast
      ring
    simp only [habs]
    ring_nf
  · rw [if_neg hneg]
    simp only [List.nil_append, List.append_assoc, List.cons_append]
    obtain ⟨c, t, hct⟩ : ∃ c t, natDigits (n.natAbs / 100) = c :: t := by
      cases h : natDigits (n.natAbs / 100) with
      | nil => exact absurd h (natDigits_ne_nil _)
      | cons c t => exact ⟨c, t, rfl⟩
    have hcdig : c.isDigit = true :=
      natDigits_mem_isDigit _ c (by rw [hct]; exact List.mem_cons_self _ _)
    have hcne : c ≠ '-' := by
      intro hc
      rw [hc] at hcdig
      exact absurd hcdig (by decide)
    rw [hct, List.cons_append, parseFixed, if_neg hcne, ← List.cons_append, ← hct,
      parseUFixed_encode]
    have habs : ((n.natAbs : ℚ)) = (n : ℚ) := by
      rw [Int.cast_natAbs, abs_of_nonneg (not_lt.mp hneg)]
    rw [habs]

lemma parseFrame_encodeFrame (r p y : ℚ) :
    parseFrame (encodeFrame r p y) =
      some ((round (r * 100) : ℚ) / 100, (round (p * 100) : ℚ) / 100,
        (round (y * 100) : ℚ) / 100) := by
  rw [encodeFrame, parseFrame]
  simp only [List.append_assoc, parseLit_self, parseFixed_fmt2]

-- ======================================================================
-- Size and precision of the encoded frame
-- ======================================================================

lemma round_natAbs_le (x : ℚ) (h : |x| ≤ 360) : (round (x * 100)).natAbs ≤ 36000 := by
  obtain ⟨hl, hu⟩ := abs_le.mp h
  have hup : round (x * 100) ≤ 36000 := by
    rw [round_eq]
    calc ⌊x * 100 + 1 / 2⌋ ≤ ⌊(72001 / 2 : ℚ)⌋ := Int.floor_le_floor (by linarith)
    _ = 36000 := by
        rw [Int.floor_eq_iff]
        norm_num
  have hlo : -36000 ≤ round (x * 100) := by
    rw [round_eq]
    calc (-36000 : ℤ) = ⌊(-71999 / 2 : ℚ)⌋ := by
          rw [eq_comm, Int.floor_eq_iff]
          norm_num
    _ ≤ ⌊x * 100 + 1 / 2⌋ := Int.floor_le_floor (by linarith)
  omega

lemma fmt2_length (x : ℚ) (h : |x| ≤ 360) : (fmt2 x).length ≤ 7 := by
  rw [fmt2]
  have hm : (round (x * 100)).natAbs ≤ 36000 := round_natAbs_le x h
  have hd : (natDigits ((round (x * 100)).natAbs / 100)).length ≤ 3 := by
    apply natDigits_length_le 2
    omega
  simp only [List.length_append, List.length_cons, List.length_nil, List.length_singleton]
  split <;> simp <;> omega

/-- The rendering ends in a dot followed by exactly two decimal digits,
and no other dot occurs. -/
def twoDecimals (l : List Char) : Prop :=
  ∃ pre d1 d2, l = pre ++ '.' :: [d1, d2] ∧
    d1.isDigit = true ∧ d2.isDigit = true ∧ '.' ∉ pre

lemma fmt2_twoDecimals (x : ℚ) : twoDecimals (fmt2 x) := by
  rw [fmt2]
  refine ⟨(if round (x * 100) < 0 then ['-'] else []) ++
      natDigits ((round (x * 100)).natAbs / 100),
    digitChar ((round (x * 100)).natAbs % 100 / 10),
    digitChar ((round (x * 100)).natAbs % 10),
    by simp [List.append_assoc],
    digitChar_isDigit (by omega), digitChar_isDigit (by omega), ?_⟩
  intro hmem
  rw [List.mem_append] at hmem
  rcases hmem with hmem | hmem
  · split at hmem <;> simp at hmem
  · exact absurd (natDigits_mem_isDigit _ _ hmem) (by decide)

lemma round_div_close (x : ℚ) : |x - (round (x * 100) : ℚ) / 100| ≤ 1 / 100 := by
  have h := abs_sub_round (x * 100)
  rw [show x - (round (x * 100) : ℚ) / 100 = (x * 100 - round (x * 100)) / 100 by ring,
    abs_div, abs_of_pos (by norm_num : (0 : ℚ) < 100)]
  linarith

-- ======================================================================
-- Orientation filter.
-- Floating-point values are idealised as real numbers.
-- ======================================================================

/-- A 3-vector (acceleration in m/s^2 or angular rate). -/
structure V3 where
  x : ℝ
  y : ℝ
  z : ℝ

/-- The filter's persistent state: an orientation quaternion. -/
structure Quat where
  q0 : ℝ
  q1 : ℝ
  q2 : ℝ
  q3 : ℝ

/-- Modelled from the spec: `filter.begin` initialises the state to the
identity orientation (spec section 3, FilterState). -/
def qIdentity : Quat := ⟨1, 0, 0, 0⟩

noncomputable def qnormalize (q : Quat) : Quat :=
  let n := Real.sqrt (q.q0 ^ 2 + q.q1 ^ 2 + q.q2 ^ 2 + q.q3 ^ 2)
  ⟨q.q0 / n, q.q1 / n, q.q2 / n, q.q3 / n⟩

/-- Modelled from the spec: the near-zero threshold of the
degenerate-accelerometer policy (spec sections 4.1 and 7): an
accelerometer vector whose squared magnitude is at most this bound
counts as near-zero (free-fall or fault).  The spec fixes no numeric
value — only that such magnitudes are far below gravity's ~9.8 m/s² —
so any small positive bound realises the policy; the theorems never
depend on the exact value, only the witnesses instantiate it. -/
noncomputable def accelEpsSq : ℝ := 1 / 100

/-- Modelled from the spec: the Madgwick-style AHRS update named in spec
section 4.1 (the `MadgwickAHRS` library include is absent from `src/`).
Input angular rate is in degrees/second (the filter's native unit, spec
section 4.1 step 1); internally it is converted back to radians/second.
Each call integrates the angular-rate-derived quaternion rate of change,
applies a gradient-descent correction from the normalised accelerometer
vector with trust coefficient `β` — skipped when the accelerometer
vector has near-zero magnitude (squared norm at most `accelEpsSq`),
since a (near-)zero vector cannot be reliably normalised (spec sections
4.1 and 7) — and renormalises. -/
noncomputable def madgwickUpdateIMU (β dt : ℝ) (q : Quat) (g a : V3) : Quat :=
  let gx := g.x * (Real.pi / 180)
  let gy := g.y * (Real.pi / 180)
  let gz := g.z * (Real.pi / 180)
  let qDot1 := 1 / 2 * (-q.q1 * gx - q.q2 * gy - q.q3 * gz)
  let qDot2 := 1 / 2 * (q.q0 * gx + q.q2 * gz - q.q3 * gy)
  let qDot3 := 1 / 2 * (q.q0 * gy - q.q1 * gz + q.q3 * gx)
  let qDot4 := 1 / 2 * (q.q0 * gz + q.q1 * gy - q.q2 * gx)
  let s : Quat :=
    if a.x ^ 2 + a.y ^ 2 + a.z ^ 2 ≤ accelEpsSq then ⟨0, 0, 0, 0⟩
    else
      let an := Real.sqrt (a.x ^ 2 + a.y ^ 2 + a.z ^ 2)
      let ax := a.x / an
      let ay := a.y / an
      let az := a.z / an
      qnormalize
        ⟨4 * q.q0 * q.q2 ^ 2 + 2 * q.q2 * ax + 4 * q.q0 * q.q1 ^ 2 - 2 * q.q1 * ay,
         4 * q.q1 * q.q3 ^ 2 - 2 * q.q3 * ax + 4 * q.q0 ^ 2 * q.q1 - 2 * q.q0 * ay -
           4 * q.q1 + 8 * q.q1 ^ 3 + 8 * q.q1 * q.q2 ^ 2 + 4 * q.q1 * az,
         4 * q.q0 ^ 2 * q.q2 + 2 * q.q0 * ax + 4 * q.q2 * q.q3 ^ 2 - 2 * q.q3 * ay -
           4 * q.q2 + 8 * q.q1 ^ 2 * q.q2 + 8 * q.q2 ^ 3 + 4 * q.q2 * az,
         4 * q.q1 ^ 2 * q.q3 - 2 * q.q1 * ax + 4 * q.q2 ^ 2 * q.q3 - 2 * q.q2 * ay⟩
  qnormalize
    ⟨q.q0 + (qDot1 - β * s.q0) * dt,
     q.q1 + (qDot2 - β * s.q1) * dt,
     q.q2 + (qDot3 - β * s.q2) * dt,
     q.q3 + (qDot4 - β * s.q3) * dt⟩

/-- Modelled from the spec: pure gyro integration (spec section 4.1 steps
1, 2 and 4 only — the fallback named in the degenerate-input policy):
integrate the angular-rate-derived quaternion rate of change and
renormalise, with no accelerometer correction. -/
noncomputable def gyroIntegrate (dt : ℝ) (q : Quat) (g : V3) : Quat :=
  let gx := g.x * (Real.pi / 180)
  let gy := g.y * (Real.pi / 180)
  let gz := g.z * (Real.pi / 180)
  qnormalize
    ⟨q.q0 + 1 / 2 * (-q.q1 * gx - q.q2 * gy - q.q3 * gz) * dt,
     q.q1 + 1 / 2 * (q.q0 * gx + q.q2 * gz - q.q3 * gy) * dt,
     q.q2 + 1 / 2 * (q.q0 * gy - q.q1 * gz + q.q3 * gx) * dt,
     q.q3 + 1 / 2 * (q.q0 * gz + q.q1 * gy - q.q2 * gx) * dt⟩

/-- Two-argument arctangent, the `atan2f` used for the Euler conversion. -/
noncomputable def atan2 (y x : ℝ) : ℝ :=
  if 0 < x then Real.arctan (y / x)
  else if x < 0 then
    if 0 ≤ y then Real.arctan (y / x) + Real.pi else Real.arctan (y / x) - Real.pi
  else
    if 0 < y then Real.pi / 2 else if y < 0 then -(Real.pi / 2) else 0

/-- Modelled from the spec: quaternion-to-Euler conversion (spec section
4.1 step 5), roll in degrees. -/
noncomputable def getRoll (q : Quat) : ℝ :=
  atan2 (q.q0 * q.q1 + q.q2 * q.q3) (1 / 2 - q.q1 ^ 2 - q.q2 ^ 2) * (180 / Real.pi)

/-- Modelled from the spec: pitch in degrees. -/
noncomputable def getPitch (q : Quat) : ℝ :=
  Real.arcsin (-2 * (q.q1 * q.q3 - q.q0 * q.q2)) * (180 / Real.pi)

/-- Modelled from the spec: yaw in degrees. -/
noncomputable def getYaw (q : Quat) : ℝ :=
  atan2 (q.q1 * q.q2 + q.q0 * q.q3) (1 / 2 - q.q2 ^ 2 - q.q3 ^ 2) * (180 / Real.pi)

/-- Modelled from the spec: the filter's tunable trust coefficient
(spec section 4.1 step 3); its value is irrelevant to the theorems. -/
noncomputable def betaDefault : ℝ := 1 / 10

/-- The `dt` used inside each update: the reciprocal of the rate passed
to `filter.begin(SAMPLE_RATE_HZ)` (source line 70). -/
noncomputable def invSampleFreq : ℝ := 1 / ((SAMPLE_RATE_HZ : ℚ) : ℝ)

/-- `ComputeOrientation` (source lines 127-144): convert the gyroscope
sample from rad/s to deg/s — the only scaling at the filter's input
boundary — feed the filter, and read the Euler angles. -/
noncomputable def ComputeOrientation (q : Quat) (accel gyro : V3) : Quat × ℝ × ℝ × ℝ :=
  let gx := gyro.x * 180 / Real.pi
  let gy := gyro.y * 180 / Real.pi
  let gz := gyro.z * 180 / Real.pi
  let q' := madgwickUpdateIMU betaDefault invSampleFreq q ⟨gx, gy, gz⟩ accel
  (q', getRoll q', getPitch q', getYaw q')

-- ======================================================================
-- Filter lemmas
-- ======================================================================

lemma madgwick_nearZero_accel (β dt : ℝ) (q : Quat) (g a : V3)
    (ha : a.x ^ 2 + a.y ^ 2 + a.z ^ 2 ≤ accelEpsSq) :
    madgwickUpdateIMU β dt q g a = gyroIntegrate dt q g := by
  unfold madgwickUpdateIMU gyroIntegrate
  rw [if_pos ha]
  norm_num

lemma madgwick_zero_accel (β dt : ℝ) (q : Quat) (g : V3) :
    madgwickUpdateIMU β dt q g ⟨0, 0, 0⟩ = gyroIntegrate dt q g :=
  madgwick_nearZero_accel β dt q g ⟨0, 0, 0⟩ (by norm_num [accelEpsSq])

lemma gyroIntegrate_xaxis (dt w : ℝ) :
    gyroIntegrate dt qIdentity ⟨w * 180 / Real.pi, 0, 0⟩ =
      qnormalize ⟨1, w * dt / 2, 0, 0⟩ := by
  unfold gyroIntegrate qIdentity
  have hπ : Real.pi ≠ 0 := Real.pi_ne_zero
  norm_num
  congr 1
  field_simp

lemma qnormalize_small (u : ℝ) :
    qnormalize ⟨1, u, 0, 0⟩ =
      ⟨1 / Real.sqrt (1 + u ^ 2), u / Real.sqrt (1 + u ^ 2), 0, 0⟩ := by
  unfold qnormalize
  norm_num

lemma arctan_le_self {u : ℝ} (h : 0 ≤ u) : Real.arctan u ≤ u := by
  have hmono : Monotone (fun v : ℝ => v - Real.arctan v) := by
    apply monotone_of_deriv_nonneg
    · exact differentiable_id.sub Real.differentiable_arctan
    · intro v
      have hd : HasDerivAt (fun v : ℝ => v - Real.arctan v) (1 - 1 / (1 + v ^ 2)) v :=
        (hasDerivAt_id v).sub (Real.hasDerivAt_arctan v)
      rw [hd.deriv]
      have h2 : 1 / (1 + v ^ 2) ≤ 1 := by
        rw [div_le_one (by positivity)]
        nlinarith
      linarith
  have hm := hmono h
  simp only [Real.arctan_zero, sub_zero] at hm
  linarith

lemma self_sub_cube_le_arctan {u : ℝ} (h : 0 ≤ u) : u - u ^ 3 ≤ Real.arctan u := by
  have hmono : Monotone (fun v : ℝ => Real.arctan v - v + v ^ 3) := by
    apply monotone_of_deriv_nonneg
    · exact (Real.differentiable_arctan.sub differentiable_id).add (differentiable_pow 3)
    · intro v
      have hd : HasDerivAt (fun v : ℝ => Real.arctan v - v + v ^ 3)
          (1 / (1 + v ^ 2) - 1 + 3 * v ^ 2) v := by
        have hh := ((Real.hasDerivAt_arctan v).sub (hasDerivAt_id v)).add (hasDerivAt_pow 3 v)
        norm_num at hh
        convert hh using 1
        ring
      rw [hd.deriv]
      have key : 1 / (1 + v ^ 2) - 1 + 3 * v ^ 2 = (2 * v ^ 2 + 3 * v ^ 4) / (1 + v ^ 2) := by
        field_simp
        ring
      rw [key]
      positivity
  have hm := hmono h
  simp only [Real.arctan_zero, zero_sub, neg_add_eq_sub] at hm
  norm_num at hm
  linarith

lemma euler_small_xrot (u : ℝ) (h0 : 0 < u) (h1 : u ≤ 1 / 2) :
    getRoll (qnormalize ⟨1, u, 0, 0⟩) = 2 * Real.arctan u * (180 / Real.pi) ∧
    getPitch (qnormalize ⟨1, u, 0, 0⟩) = 0 ∧
    getYaw (qnormalize ⟨1, u, 0, 0⟩) = 0 := by
  rw [qnormalize_small]
  have h1u : (0 : ℝ) < 1 + u ^ 2 := by positivity
  set N := Real.sqrt (1 + u ^ 2) with hNdef
  have hNpos : 0 < N := Real.sqrt_pos.mpr h1u
  have hN2 : N ^ 2 = 1 + u ^ 2 := Real.sq_sqrt (le_of_lt h1u)
  have hNne : N ≠ 0 := ne_of_gt hNpos
  have hu2 : u ^ 2 < 1 := by nlinarith
  refine ⟨?_, ?_, ?_⟩
  · rw [getRoll]
    have hnum : 1 / N * (u / N) + 0 * 0 = u / (1 + u ^ 2) := by
      rw [div_mul_div_comm, one_mul, ← pow_two, hN2, mul_zero, add_zero]
    have hden : 1 / 2 - (u / N) ^ 2 - (0 : ℝ) ^ 2 = (1 - u ^ 2) / (2 * (1 + u ^ 2)) := by
      rw [div_pow, hN2]
      field_simp
      ring
    have hdenpos : 0 < (1 - u ^ 2) / (2 * (1 + u ^ 2)) :=
      div_pos (by nlinarith) (by positivity)
    simp only [hnum, hden]
    rw [atan2, if_pos hdenpos]
    have harg : u / (1 + u ^ 2) / ((1 - u ^ 2) / (2 * (1 + u ^ 2))) = 2 * u / (1 - u ^ 2) := by
      have hne1 : (1 + u ^ 2 : ℝ) ≠ 0 := by positivity
      have hne2 : (1 - u ^ 2 : ℝ) ≠ 0 := ne_of_gt (by nlinarith)
      field_simp
      ring
    rw [harg]
    have harcpos : 0 < Real.arctan u := by
      rw [← Real.arctan_zero]
      exact Real.arctan_strictMono h0
    have harclt : Real.arctan u < Real.pi / 4 := by
      rw [← Real.arctan_one]
      exact Real.arctan_strictMono (by nlinarith)
    have htan : Real.tan (2 * Real.arctan u) = 2 * u / (1 - u ^ 2) := by
      rw [Real.tan_two_mul, Real.tan_arctan]
    rw [← htan, Real.arctan_tan (by linarith [Real.pi_pos]) (by linarith)]
  · rw [getPitch]
    norm_num [Real.arcsin_zero]
  · rw [getYaw]
    norm_num
    rw [atan2, if_pos (by norm_num : (0 : ℝ) < 1 / 2)]
    norm_num [Real.arctan_zero]

-- ======================================================================
-- The streaming loop (source lines 166-196) as a per-tick transition
-- system.  One `EnvTick` is what the environment supplies during one
-- check of the loop condition: whether the BLE central is (still)
-- connected and what the sensor driver delivered.
-- ======================================================================

/-- Per-tick environment input.  `readOk` is the success flag the sensor
driver returns from `getEvent`; the sketch never inspects it. -/
structure EnvTick where
  connected : Bool
  peer : ℕ
  readOk : Bool
  accel : V3
  gyro : V3

inductive ConnState where
  | idle : ConnState
  | streaming : ℕ → ConnState
deriving DecidableEq

/-- The state the sketch carries across ticks: the connection phase of
`loop` and the Madgwick filter state. -/
structure SysState where
  conn : ConnState
  q : Quat

/-- One frame handed to `txChar.writeValue`, tagged with the peer that
was connected when `SendOrientation` ran. -/
structure TxFrame where
  peer : ℕ
  roll : ℝ
  pitch : ℝ
  yaw : ℝ

/-- `ReadSensorData` (source lines 94-96): copy whatever `getEvent`
delivered into the sample structs; the driver's success flag (`e.readOk`)
is discarded. -/
def ReadSensorData (e : EnvTick) : V3 × V3 := (e.accel, e.gyro)

/-- One tick of `loop`: in the outer phase (`idle`), `BLE.central()` is
polled and a connection enters the inner `while`; in the inner phase
(`streaming p`), `central.connected()` is checked, and while it holds the
tick reads the sensor, runs the filter, and transmits one frame to `p`. -/
noncomputable def step (s : SysState) (e : EnvTick) : SysState × List TxFrame :=
  match s.conn with
  | .idle => if e.connected then (⟨.streaming e.peer, s.q⟩, []) else (s, [])
  | .streaming p =>
    if e.connected then
      let sample := ReadSensorData e
      let o := ComputeOrientation s.q sample.1 sample.2
      (⟨.streaming p, o.1⟩, [⟨p, o.2.1, o.2.2.1, o.2.2.2⟩])
    else (⟨.idle, s.q⟩, [])

/-- Run the loop over a list of ticks, collecting transmitted frames. -/
noncomputable def run (s : SysState) : List EnvTick → SysState × List TxFrame
  | [] => (s, [])
  | e :: es =>
    let r1 := step s e
    let r2 := run r1.1 es
    (r2.1, r1.2 ++ r2.2)

-- ======================================================================
-- InitializeIMUAndBLE (source lines 59-88) and setup/loop wiring.
-- A failed check halts in an infinite delay loop that performs no
-- sends and no filter operations, so the streaming loop is never
-- entered; the outcome records how far initialisation got.
-- ======================================================================

/-- What startup accomplished.  `filterStarted` records whether
`filter.begin(SAMPLE_RATE_HZ)` (line 70) was reached; `advertising`
whether `BLE.advertise()` (line 86) was reached. -/
structure InitOutcome where
  completed : Bool
  filterStarted : Bool
  advertising : Bool

/-- `InitializeIMUAndBLE`: probe the IMU (halt forever on failure, before
the filter is started), start the filter, start BLE (halt forever on
failure, before advertising), then advertise. -/
def initIMUAndBLE (imuOk bleOk : Bool) : InitOutcome :=
  if imuOk = false then ⟨false, false, false⟩
  else if bleOk = false then ⟨false, true, false⟩
  else ⟨true, true, true⟩

/-- The whole sketch: `setup` runs `InitializeIMUAndBLE`; only if it
completes does the Arduino runtime ever reach `loop`, starting from no
connection and the identity filter state.  `none` means startup halted
in one of the `while (true)` loops and nothing was ever streamed. -/
noncomputable def systemRun (imuOk bleOk : Bool) (es : List EnvTick) :
    Option (SysState × List TxFrame) :=
  if (initIMUAndBLE imuOk bleOk).completed then some (run ⟨.idle, qIdentity⟩ es) else none

-- ======================================================================
-- The raw-passthrough variant (adafruit_lsm6dso32.ino).
-- ======================================================================

/-- What the raw variant's `setup` accomplished.  It begins serial, then
spins in `while (!Serial) delay(10);` until a USB serial console is
attached, then probes the sensor (halting on failure), starts BLE
(halting on failure), advertises, and configures ranges. -/
structure RawSetupOutcome where
  completed : Bool
  sensorProbed : Bool
  advertising : Bool

/-- `setup` of the raw variant (source lines 24-171).  `serialReady`
says whether a USB serial console ever attaches; while it does not, the
wait loop never exits and nothing after it runs. -/
def rawSetup (serialReady imuOk bleOk : Bool) : RawSetupOutcome :=
  if serialReady = false then ⟨false, false, false⟩
  else if imuOk = false then ⟨false, true, false⟩
  else if bleOk = false then ⟨false, true, false⟩
  else ⟨true, true, true⟩

/-- One raw frame: the JSON of raw accel/gyro (and timestamp) sent to
the peer connected at that tick. -/
structure RawFrame where
  peer : ℕ
  accel : V3
  gyro : V3

/-- One tick of the raw variant's `loop`: same connection structure as
the fused sketch, but each connected tick transmits the raw sample. -/
def rawStep (c : ConnState) (e : EnvTick) : ConnState × List RawFrame :=
  match c with
  | .idle => if e.connected then (.streaming e.peer, []) else (.idle, [])
  | .streaming p =>
    if e.connected then (.streaming p, [⟨p, e.accel, e.gyro⟩]) else (.idle, [])

def rawRun (c : ConnState) : List EnvTick → ConnState × List RawFrame
  | [] => (c, [])
  | e :: es =>
    let r1 := rawStep c e
    let r2 := rawRun r1.1 es
    (r2.1, r1.2 ++ r2.2)

/-- The whole raw sketch: `loop` (and hence any streaming) runs only if
`setup` completed. -/
def rawSystemRun (serialReady imuOk bleOk : Bool) (es : List EnvTick) :
    Option (ConnState × List RawFrame) :=
  if (rawSetup serialReady imuOk bleOk).completed then some (rawRun .idle es) else none

-- ======================================================================
-- Claim theorems
-- ======================================================================

/-- C1: the claim states `SAMPLE_RATE_HZ = 1000 / LOOP_DELAY_MS`, i.e.
that the filter's configured rate matches the loop cadence (as the
constant's own comment "Match with loop delay" intends).  The configured
constants refute it: the loop runs at 1000/100 = 10 Hz while the filter
is configured for 100 Hz, so the dt used inside each update (1/100 s) is
ten times shorter than the real interval between updates (1/10 s). -/
theorem C1_rate_vs_delay :
    SAMPLE_RATE_HZ = 100 ∧ (1000 : ℚ) / (LOOP_DELAY_MS : ℚ) = 10 ∧
      SAMPLE_RATE_HZ ≠ 1000 / (LOOP_DELAY_MS : ℚ) ∧
      (1 : ℚ) / SAMPLE_RATE_HZ ≠ (LOOP_DELAY_MS : ℚ) / 1000 := by
  refine ⟨rfl, ?_, ?_, ?_⟩ <;> norm_num [SAMPLE_RATE_HZ, LOOP_DELAY_MS]

/-- Concrete streaming tick whose sensor read fails. -/
def failTick : EnvTick := ⟨true, 7, false, ⟨0, 0, 0⟩, ⟨0, 0, 0⟩⟩

/-- C2 counterexample: a tick in the Streaming state whose sensor read
failed (`readOk = false`) still transmits a frame — the claim says the
transmit step is skipped and no frame is sent on such a tick. -/
theorem C2_counterexample :
    failTick.readOk = false ∧
      ((step ⟨.streaming 7, qIdentity⟩ failTick).2).length = 1 :=
  ⟨rfl, rfl⟩

/-- C2 (amended): the sketch never inspects the sensor driver's success
flag (`ReadSensorData` discards it), so on every Streaming tick with the
peer still connected the fusion step runs and exactly one frame is
transmitted regardless of the read outcome `ro`; the connection state is
unchanged and the loop is not terminated. -/
theorem C2_read_failure_ignored (q : Quat) (p pe : ℕ) (ro : Bool) (a g : V3) :
    step ⟨.streaming p, q⟩ ⟨true, pe, ro, a, g⟩ =
      (⟨.streaming p, (ComputeOrientation q a g).1⟩,
        [⟨p, (ComputeOrientation q a g).2.1, (ComputeOrientation q a g).2.2.1,
          (ComputeOrientation q a g).2.2.2⟩]) := rfl

/-- C5: if the accelerometer vector of a sample is (0,0,0) or has
near-zero magnitude (squared norm at most the configured near-zero
threshold, spec sections 4.1 and 7), calling the update does not fail
(it is a total function) and propagates no NaN or division-by-zero into
the filter state or output: the gravity-correction step — the only
place the accelerometer norm is divided by — is skipped for that tick,
and the returned estimate equals pure gyro integration from the prior
filter state, for every gain, dt, prior state and gyro sample. -/
theorem C5_degenerate_accel_pure_gyro (β dt : ℝ) (q : Quat) (g a : V3)
    (ha : a.x ^ 2 + a.y ^ 2 + a.z ^ 2 ≤ accelEpsSq) :
    madgwickUpdateIMU β dt q g a = gyroIntegrate dt q g :=
  madgwick_nearZero_accel β dt q g a ha

/-- C5 witness: the theorem applied to a near-zero (and to that extent
degenerate) accelerometer reading of (0.01, 0, 0) m/s². -/
theorem C5_witness :
    ((⟨1 / 100, 0, 0⟩ : V3).x ^ 2 + (⟨1 / 100, 0, 0⟩ : V3).y ^ 2 +
        (⟨1 / 100, 0, 0⟩ : V3).z ^ 2 ≤ accelEpsSq) ∧
      madgwickUpdateIMU 1 1 qIdentity ⟨1, 2, 3⟩ ⟨1 / 100, 0, 0⟩ =
        gyroIntegrate 1 qIdentity ⟨1, 2, 3⟩ :=
  ⟨by norm_num [accelEpsSq],
    C5_degenerate_accel_pure_gyro 1 1 qIdentity ⟨1, 2, 3⟩ ⟨1 / 100, 0, 0⟩
      (by norm_num [accelEpsSq])⟩

/-- C6: the filter state is initialised once at startup (`systemRun`
starts `run` from `qIdentity`) and no connection-state transition resets
it: an Idle-to-Streaming transition (including any reconnection) keeps
the filter state `q` unchanged and its only entry action is recording
the peer identity `pe` (no frame is emitted), and a disconnect likewise
keeps `q` unchanged. -/
theorem C6_filter_not_reset_on_transition (q : Quat) (pe p : ℕ) (ro : Bool) (a g : V3) :
    step ⟨.idle, q⟩ ⟨true, pe, ro, a, g⟩ = (⟨.streaming pe, q⟩, []) ∧
      step ⟨.streaming p, q⟩ ⟨false, pe, ro, a, g⟩ = (⟨.idle, q⟩, []) :=
  ⟨rfl, rfl⟩

/-- C7: frames are transmitted only while a peer is connected.  From
Idle, a connected peer transitions the loop to Streaming with no frame
emitted; every Streaming tick with the peer still connected transmits
exactly one frame, and it carries the recorded peer `p`; a disconnect
returns the loop to Idle with no frame; while Idle and disconnected no
frame is emitted; and a run that never sees a connected peer transmits
nothing at all. -/
theorem C7_frames_only_while_streaming :
    (∀ (q : Quat) (pe : ℕ) (ro : Bool) (a g : V3),
        (step ⟨.idle, q⟩ ⟨true, pe, ro, a, g⟩).1.conn = .streaming pe ∧
          (step ⟨.idle, q⟩ ⟨true, pe, ro, a, g⟩).2 = []) ∧
    (∀ (q : Quat) (p pe : ℕ) (ro : Bool) (a g : V3),
        ((step ⟨.streaming p, q⟩ ⟨true, pe, ro, a, g⟩).2).map TxFrame.peer = [p]) ∧
    (∀ (q : Quat) (p pe : ℕ) (ro : Bool) (a g : V3),
        (step ⟨.streaming p, q⟩ ⟨false, pe, ro, a, g⟩).1.conn = .idle ∧
          (step ⟨.streaming p, q⟩ ⟨false, pe, ro, a, g⟩).2 = []) ∧
    (∀ (q : Quat) (pe : ℕ) (ro : Bool) (a g : V3),
        (step ⟨.idle, q⟩ ⟨false, pe, ro, a, g⟩).1.conn = .idle ∧
          (step ⟨.idle, q⟩ ⟨false, pe, ro, a, g⟩).2 = []) ∧
    (∀ (q : Quat) (n pe : ℕ) (ro : Bool) (a g : V3),
        (run ⟨.idle, q⟩ (List.replicate n ⟨false, pe, ro, a, g⟩)).2 = []) := by
  refine ⟨fun q pe ro a g => ⟨rfl, rfl⟩, fun q p pe ro a g => rfl,
    fun q p pe ro a g => ⟨rfl, rfl⟩, fun q pe ro a g => ⟨rfl, rfl⟩, ?_⟩
  intro q n pe ro a g
  induction n with
  | zero => rfl
  | succ n ih => simpa [run, step, List.replicate_succ] using ih

/-- C9: initialisation failure is fatal.  If the IMU probe or the BLE
start fails, the sketch halts inside `InitializeIMUAndBLE` and the
streaming loop is never entered (`systemRun` yields nothing for any tick
sequence), so no frame is ever transmitted and the filter is never
updated; a BLE failure additionally halts before advertising, and an IMU
failure halts before the filter is even started. -/
theorem C9_init_failure_fatal (b : Bool) (es : List EnvTick) :
    systemRun false b es = none ∧ systemRun b false es = none ∧
      (initIMUAndBLE false b).advertising = false ∧
      (initIMUAndBLE b false).advertising = false ∧
      (initIMUAndBLE false b).filterStarted = false := by
  cases b <;> exact ⟨rfl, rfl, rfl, rfl, rfl⟩

/-- C10: in the raw-passthrough variant, `setup` spins in
`while (!Serial) delay(10);` until a USB serial console attaches.  If no
console ever attaches, setup never completes: the sensor is never
probed, BLE never advertises, and the loop (hence any streaming) never
runs, whatever the sensor/BLE health and whatever ticks would follow. -/
theorem C10_raw_setup_blocks_without_serial (i b : Bool) (es : List EnvTick) :
    (rawSetup false i b).completed = false ∧
      (rawSetup false i b).sensorProbed = false ∧
      (rawSetup false i b).advertising = false ∧
      rawSystemRun false i b es = none :=
  ⟨rfl, rfl, rfl, rfl⟩

/-- C3: `ComputeOrientation` converts each angular-rate component from
rad/s to deg/s by multiplying by 180/π, and this is the only scaling at
the filter's input boundary: for a constant rate of `r` rad/s about the
x-axis, zero accelerometer vector (no correction influence) and the
identity prior state, the roll change over one tick equals
`(180/π) * r * dt` degrees up to a cubic-order tolerance, and pitch and
yaw stay exactly zero. -/
theorem C3_rad_to_deg_conversion (r : ℝ) (h0 : 0 < r) (h1 : r * invSampleFreq ≤ 1) :
    |(ComputeOrientation qIdentity ⟨0, 0, 0⟩ ⟨r, 0, 0⟩).2.1 -
        180 / Real.pi * (r * invSampleFreq)| ≤ 180 / Real.pi * (r * invSampleFreq) ^ 3 ∧
    (ComputeOrientation qIdentity ⟨0, 0, 0⟩ ⟨r, 0, 0⟩).2.2.1 = 0 ∧
    (ComputeOrientation qIdentity ⟨0, 0, 0⟩ ⟨r, 0, 0⟩).2.2.2 = 0 := by
  have hdtpos : 0 < invSampleFreq := by
    rw [invSampleFreq, SAMPLE_RATE_HZ]
    norm_num
  set u : ℝ := r * invSampleFreq / 2 with hu
  have hu0 : 0 < u := by
    rw [hu]
    exact div_pos (mul_pos h0 hdtpos) (by norm_num)
  have hu12 : u ≤ 1 / 2 := by
    rw [hu]
    linarith
  have hco : ComputeOrientation qIdentity ⟨0, 0, 0⟩ ⟨r, 0, 0⟩ =
      (qnormalize ⟨1, u, 0, 0⟩, getRoll (qnormalize ⟨1, u, 0, 0⟩),
        getPitch (qnormalize ⟨1, u, 0, 0⟩), getYaw (qnormalize ⟨1, u, 0, 0⟩)) := by
    rw [ComputeOrientation]
    simp only [madgwick_zero_accel, zero_mul, zero_div]
    rw [gyroIntegrate_xaxis, hu]
  have hroll' : (ComputeOrientation qIdentity ⟨0, 0, 0⟩ ⟨r, 0, 0⟩).2.1 =
      getRoll (qnormalize ⟨1, u, 0, 0⟩) := by rw [hco]
  have hpitch' : (ComputeOrientation qIdentity ⟨0, 0, 0⟩ ⟨r, 0, 0⟩).2.2.1 =
      getPitch (qnormalize ⟨1, u, 0, 0⟩) := by rw [hco]
  have hyaw' : (ComputeOrientation qIdentity ⟨0, 0, 0⟩ ⟨r, 0, 0⟩).2.2.2 =
      getYaw (qnormalize ⟨1, u, 0, 0⟩) := by rw [hco]
  obtain ⟨hroll, hpitch, hyaw⟩ := euler_small_xrot u hu0 hu12
  refine ⟨?_, by rw [hpitch', hpitch], by rw [hyaw', hyaw]⟩
  rw [hroll', hroll]
  have ht : r * invSampleFreq = 2 * u := by
    rw [hu]
    ring
  rw [ht]
  have hc : (0 : ℝ) < 180 / Real.pi := div_pos (by norm_num) Real.pi_pos
  have hb1 : Real.arctan u ≤ u := arctan_le_self hu0.le
  have hb2 : u - u ^ 3 ≤ Real.arctan u := self_sub_cube_le_arctan hu0.le
  have habs : |2 * Real.arctan u * (180 / Real.pi) - 180 / Real.pi * (2 * u)| =
      180 / Real.pi * (2 * (u - Real.arctan u)) := by
    rw [abs_of_nonpos (by nlinarith [mul_le_mul_of_nonneg_left hb1 hc.le])]
    ring
  rw [habs]
  have hcube : (0 : ℝ) ≤ u ^ 3 := by positivity
  calc 180 / Real.pi * (2 * (u - Real.arctan u)) ≤ 180 / Real.pi * (2 * u ^ 3) := by
        apply mul_le_mul_of_nonneg_left _ hc.le
        linarith
  _ ≤ 180 / Real.pi * (2 * u) ^ 3 := by
        apply mul_le_mul_of_nonneg_left _ hc.le
        nlinarith

/-- C3 witness: the theorem instantiated at a rate of 1 rad/s. -/
theorem C3_witness :
    0 < (1 : ℝ) ∧ (1 : ℝ) * invSampleFreq ≤ 1 ∧
      |(ComputeOrientation qIdentity ⟨0, 0, 0⟩ ⟨1, 0, 0⟩).2.1 -
          180 / Real.pi * (1 * invSampleFreq)| ≤ 180 / Real.pi * (1 * invSampleFreq) ^ 3 :=
  ⟨one_pos, by norm_num [invSampleFreq, SAMPLE_RATE_HZ],
    (C3_rad_to_deg_conversion 1 one_pos (by norm_num [invSampleFreq, SAMPLE_RATE_HZ])).1⟩

/-- C4: frame encoding is total and bounded: for every estimate whose
angles lie in the documented range, the encoded frame fits the 128-byte
buffer (at most 127 payload bytes, leaving room for the terminator, and
well under the transport's 512-byte limit), and each angle is rendered
with a dot followed by exactly two decimal digits. -/
theorem C4_encode_total_bounded (r p y : ℚ)
    (hr : |r| ≤ 360) (hp : |p| ≤ 360) (hy : |y| ≤ 360) :
    (encodeFrame r p y).length ≤ 127 ∧
      twoDecimals (fmt2 r) ∧ twoDecimals (fmt2 p) ∧ twoDecimals (fmt2 y) := by
  refine ⟨?_, fmt2_twoDecimals r, fmt2_twoDecimals p, fmt2_twoDecimals y⟩
  have h1 := fmt2_length r hr
  have h2 := fmt2_length p hp
  have h3 := fmt2_length y hy
  rw [encodeFrame]
  simp only [List.length_append]
  have e1 : litRoll.length = 8 := rfl
  have e2 : litPitch.length = 9 := rfl
  have e3 : litYaw.length = 7 := rfl
  have e4 : ([('}' : Char)]).length = 1 := rfl
  omega

/-- C4 witness: the theorem instantiated at the zero estimate. -/
theorem C4_witness :
    |(0 : ℚ)| ≤ 360 ∧ (encodeFrame 0 0 0).length ≤ 127 ∧ twoDecimals (fmt2 0) :=
  ⟨by norm_num, (C4_encode_total_bounded 0 0 0 (by norm_num) (by norm_num) (by norm_num)).1,
    (C4_encode_total_bounded 0 0 0 (by norm_num) (by norm_num) (by norm_num)).2.1⟩

/-- C8: frame encoding round-trips: parsing the JSON text produced by
`encodeFrame` succeeds and recovers each angle within 0.01 degrees of
the input (the only loss being the 2-decimal fixed precision) — in fact
for every rational input, range-restricted or not. -/
theorem C8_frame_roundtrip (r p y : ℚ) :
    ∃ r' p' y', parseFrame (encodeFrame r p y) = some (r', p', y') ∧
      |r - r'| ≤ 1 / 100 ∧ |p - p'| ≤ 1 / 100 ∧ |y - y'| ≤ 1 / 100 :=
  ⟨_, _, _, parseFrame_encodeFrame r p y,
    round_div_close r, round_div_close p, round_div_close y⟩

end Imu
